import Mathlib

set_option maxRecDepth 8192

/-!
Shallow embedding of the lambda-delay analysis pipeline
(`analyze_lambda_delay.js` class `LambdaDelayAnalyzer`, inlined in
`test_thresholds.js`, together with `meta_analysis.js`).

JavaScript numbers are modelled as rationals (`ℚ`); `null` as `Option`;
the `-1` sentinel indices are kept as `Int` where the source uses them.
-/

namespace LambdaDelay

/-- One parsed log row: `{ time, rpm, pw, lambda, load }` (see `parseFile`).
`time` is in seconds, `pw` in milliseconds. -/
structure Sample where
  time : ℚ
  rpm : ℚ
  pw : ℚ
  lambda : ℚ
  load : ℚ
deriving DecidableEq, Inhabited

/-- The configuration object (`CONFIG` / per-run `config`): the fields the
core algorithms read.  `MIN_RPM`/`MIN_PW` only matter to the out-of-scope
parser and are omitted. -/
structure Config where
  PW_CHANGE_THRESHOLD : ℚ
  LAMBDA_CHANGE_THRESHOLD : ℚ
  MAX_DELAY_MS : ℚ
  BUCKET_COUNT : ℕ
deriving DecidableEq

/-- JS `Math.sign`: `1` for positive, `-1` for negative, `0` for zero. -/
def sign (x : ℚ) : ℚ :=
  if 0 < x then 1 else if x < 0 then -1 else 0

/-- JS `Math.abs`. -/
def jsAbs (x : ℚ) : ℚ := if x < 0 then -x else x

/-- Models `getBucketIndex(value, boundaries)` from `analyze_lambda_delay.js`:
scan `i = 0 .. BUCKET_COUNT-1` and return the first `i` with
`boundaries[i] <= value < boundaries[i+1]`; failing that, return
`BUCKET_COUNT - 1` when `value === boundaries[BUCKET_COUNT]`, else `-1`. -/
def getBucketIndex (count : ℕ) (value : ℚ) (boundaries : List ℚ) : Int :=
  match (List.range count).find?
      (fun i => decide (boundaries.getD i 0 ≤ value ∧ value < boundaries.getD (i+1) 0)) with
  | some i => (i : Int)
  | none => if value = boundaries.getD count 0 then (count : Int) - 1 else -1

/-- Models `assignToBuckets`: each sample whose RPM and load both resolve to
a valid bucket (`!== -1`) is pushed onto `buckets[rpmBucket][loadBucket].data`;
all other cells are untouched.  The grid is modelled as a total function on
index pairs, empty everywhere the loop never writes. -/
def assignToBuckets (count : ℕ) (data : List Sample) (rpmB loadB : List ℚ) :
    ℕ → ℕ → List Sample :=
  data.foldl
    (fun acc p =>
      let rpmBucket := getBucketIndex count p.rpm rpmB
      let loadBucket := getBucketIndex count p.load loadB
      if rpmBucket ≠ -1 ∧ loadBucket ≠ -1 then
        fun i j =>
          if i = rpmBucket.toNat ∧ j = loadBucket.toNat then acc i j ++ [p]
          else acc i j
      else acc)
    (fun _ _ => [])

/-- The comparator `(a, b) => a.time - b.time` used by `findDelaysInSequence`
to sort a bucket's samples: ordering by the `time` field. -/
def timeLE (a b : Sample) : Prop := a.time ≤ b.time

instance : DecidableRel timeLE := fun a b => inferInstanceAs (Decidable (a.time ≤ b.time))

/-- Models `data.sort((a, b) => a.time - b.time)`: a stable sort by time. -/
def sortByTime (data : List Sample) : List Sample :=
  data.insertionSort timeLE

/-- The body of the look-ahead loop of `findDelaysInSequence` for one
candidate `future` index `j`: accept (returning `timeDiff` in ms) exactly
when lambda moved in the expected direction by at least
`LAMBDA_CHANGE_THRESHOLD` within `MAX_DELAY_MS`. -/
def tryResponse (cfg : Config) (curr future : Sample) (expectedDir : ℚ) : Option ℚ :=
  let lambdaChange := future.lambda - curr.lambda
  let timeDiff := (future.time - curr.time) * 1000
  if sign lambdaChange = expectedDir ∧
      cfg.LAMBDA_CHANGE_THRESHOLD ≤ jsAbs lambdaChange ∧
      timeDiff ≤ cfg.MAX_DELAY_MS then
    some timeDiff
  else none

/-- The acceptance test of the look-ahead loop, as a proposition over the
indices `i` (the PW-change sample) and `j` (the candidate response) of the
time-sorted list `d`: lambda moved opposite to the PW change, by at least
`LAMBDA_CHANGE_THRESHOLD`, within `MAX_DELAY_MS`. -/
def respondsAt (cfg : Config) (d : List Sample) (i j : ℕ) : Prop :=
  sign ((d.getD j default).lambda - (d.getD i default).lambda) =
    -(sign ((d.getD i default).pw - (d.getD (i-1) default).pw)) ∧
  cfg.LAMBDA_CHANGE_THRESHOLD ≤ jsAbs ((d.getD j default).lambda - (d.getD i default).lambda) ∧
  ((d.getD j default).time - (d.getD i default).time) * 1000 ≤ cfg.MAX_DELAY_MS

instance (cfg : Config) (d : List Sample) (i j : ℕ) : Decidable (respondsAt cfg d i j) :=
  inferInstanceAs (Decidable (_ ∧ _ ∧ _))

/-- One iteration of the outer loop of `findDelaysInSequence` at index `i`
of the (time-sorted) list `d`: detect a significant PW change between
`d[i-1]` and `d[i]`, then scan `j = i+1 .. min(i+100, d.length) - 1` for the
first qualifying lambda response (`break` on the first hit). -/
def processEvent (cfg : Config) (d : List Sample) (i : ℕ) : Option ℚ :=
  let prev := d.getD (i-1) default
  let curr := d.getD i default
  let pwChange := curr.pw - prev.pw
  if jsAbs pwChange < cfg.PW_CHANGE_THRESHOLD then none
  else
    (List.range' (i+1) (min (i+100) d.length - (i+1))).findSome?
      (fun j => tryResponse cfg curr (d.getD j default) (-(sign pwChange)))

/-- Models `findDelaysInSequence(data)`: sort by time, then for each
`i = 1 .. n-2` run the PW-change / lambda-response detection, collecting
the accepted `timeDiff` values (at most one per `i`) in order. -/
def findDelaysInSequence (cfg : Config) (data : List Sample) : List ℚ :=
  let d := sortByTime data
  (List.range' 1 (d.length - 2)).filterMap (processEvent cfg d)

/-- Models `median(arr)`: `null` on the empty list, else sort ascending and take
the central element (odd length) or the average of the two central
elements (even length). -/
def median (arr : List ℚ) : Option ℚ :=
  if arr = [] then none
  else
    let sorted := arr.insertionSort (· ≤ ·)
    let mid := sorted.length / 2
    if sorted.length % 2 = 0 then
      some ((sorted.getD (mid - 1) 0 + sorted.getD mid 0) / 2)
    else some (sorted.getD mid 0)

/-- JS `Math.round`: rounds to the nearest integer, halves toward `+∞`
(JavaScript computes `⌊x + 0.5⌋`). -/
def jsRound (x : ℚ) : ℤ := ⌊x + 1/2⌋

/-- Models `Math.round(delay * 10) / 10`: round to one decimal place. -/
def round1 (x : ℚ) : ℚ := (jsRound (x * 10) : ℚ) / 10

/-- The axis values built by `generateTable`: the midpoint of each bucket
interval, rounded to the nearest integer. -/
def axisValues (count : ℕ) (boundaries : List ℚ) : List ℤ :=
  (List.range count).map
    (fun i => jsRound ((boundaries.getD i 0 + boundaries.getD (i+1) 0) / 2))

/-- The delay-table cells built by `generateTable`: for each bucket, the
median of its delay list rounded to one decimal, `null` when the median is
`null` (empty list).  `buckets i j` is `this.buckets[i][j].delays`. -/
def generateTable (count : ℕ) (buckets : ℕ → ℕ → List ℚ) : List (List (Option ℚ)) :=
  (List.range count).map (fun i =>
    (List.range count).map (fun j => (median (buckets i j)).map round1))

/-- The linear nearest-timestamp scan of `calculateLambdaErrors`
(`meta_analysis.js`): walk every index, keeping the first index whose
absolute time difference to `target` is strictly smaller than the best so
far.  `none` (JS: `closestIdx === -1`, `minTimeDiff === Infinity`) only for
an empty store; otherwise `some (closestIdx, minTimeDiff)`. -/
def linearScan (times : List ℚ) (target : ℚ) : Option (ℕ × ℚ) :=
  (List.range times.length).foldl
    (fun acc i =>
      let diff := jsAbs (times.getD i 0 - target)
      match acc with
      | none => some (i, diff)
      | some (c, m) => if diff < m then some (i, diff) else some (c, m))
    none

/-- The Validator's use of the linear scan: the closest index when its time
difference is under the 0.5 s tolerance, `-1` otherwise
(`closestIdx !== -1 && minTimeDiff < 0.5` in `calculateLambdaErrors`). -/
def findClosestLinear (times : List ℚ) (target : ℚ) : Int :=
  match linearScan times target with
  | none => -1
  | some (c, m) => if m < 1/2 then (c : Int) else -1

/-- The loop of `findClosestIndex` (binary-search variant in the
cross-validation worker of `test_thresholds.js`).  State: window
`[left, right]` (Int, since `right` may reach `-1`), best index `closest`
and best difference `minDiff` (`none` models the initial `Infinity`).
`Sum.inl mid` models the early `return mid` on an exact timestamp match;
`Sum.inr (closest, minDiff)` models falling out of the `while` loop. -/
def binLoop (times : List ℚ) (target : ℚ) :
    Int → Int → ℕ → Option ℚ → Sum ℕ (ℕ × Option ℚ)
  | left, right, closest, minDiff =>
    if h : left ≤ right then
      let mid := (left + right) / 2
      let tm := times.getD mid.toNat 0
      let diff := jsAbs (tm - target)
      let st : ℕ × ℚ := match minDiff with
        | none => (mid.toNat, diff)
        | some m => if diff < m then (mid.toNat, diff) else (closest, m)
      if tm < target then
        binLoop times target (mid + 1) right st.1 (some st.2)
      else if target < tm then
        binLoop times target left (mid - 1) st.1 (some st.2)
      else Sum.inl mid.toNat
    else Sum.inr (closest, minDiff)
termination_by left right => (right + 1 - left).toNat
decreasing_by
  · omega
  · omega

/-- Models `findClosestIndex(targetTime)`: binary search over the sorted times,
returning the closest index if within the 0.5 s tolerance, else `-1`. -/
def findClosestIndexBin (times : List ℚ) (target : ℚ) : Int :=
  match binLoop times target 0 ((times.length : Int) - 1) 0 none with
  | Sum.inl mid => (mid : Int)
  | Sum.inr (closest, some m) => if m < 1/2 then (closest : Int) else -1
  | Sum.inr (_, none) => -1

/-- The per-point body of the `for (const point of analyzer.data)` loop of
`calculateLambdaErrors` (`meta_analysis.js`): the bucket key `p.lambda` is
pushed to, or `none` when the point is skipped (invalid bucket, `null`
table cell, or no historical point within the 0.5 s tolerance).
`table r l` models `delayTable[r][l]`. -/
def recordsPoint (count : ℕ) (data : List Sample) (rpmB loadB : List ℚ)
    (table : ℕ → ℕ → Option ℚ) (p : Sample) : Option (ℕ × ℕ) :=
  let rpmBucket := getBucketIndex count p.rpm rpmB
  let loadBucket := getBucketIndex count p.load loadB
  if rpmBucket = -1 ∨ loadBucket = -1 then none
  else
    match table rpmBucket.toNat loadBucket.toNat with
    | none => none
    | some estimatedDelay =>
      let targetTime := p.time - estimatedDelay / 1000
      match linearScan (data.map (·.time)) targetTime with
      | none => none
      | some (_, m) =>
        if m < 1/2 then some (rpmBucket.toNat, loadBucket.toNat) else none

/-- The `bucketErrors` accumulator of `calculateLambdaErrors`: fold over the
data in order, appending `p.lambda` to the list of the key `recordsPoint`
selects.  Keys never pushed to hold `[]` (in JS, absent — observationally
equal for the statistics, which skip lists shorter than 10). -/
def bucketErrors (count : ℕ) (data : List Sample) (rpmB loadB : List ℚ)
    (table : ℕ → ℕ → Option ℚ) : ℕ × ℕ → List ℚ :=
  data.foldl
    (fun acc p =>
      match recordsPoint count data rpmB loadB table p with
      | some key => fun k => if k = key then acc k ++ [p.lambda] else acc k
      | none => acc)
    (fun _ => [])

/-- Models `lambdas.reduce((a,b) => a+b, 0) / lambdas.length`, the mean used by
both statistics passes. -/
def listMean (l : List ℚ) : ℚ := l.sum / l.length

/-- Models `reduce((a,b) => a + Math.pow(b - mean, 2), 0) / length`: the population
variance (the radicand of the `Math.sqrt` call). -/
def popVariance (l : List ℚ) : ℚ :=
  (l.map (fun x => (x - listMean l) ^ 2)).sum / l.length

/-- Models `Math.sqrt(popVariance)`: the per-bucket population standard
deviation. -/
noncomputable def popStdDev (l : List ℚ) : ℝ := Real.sqrt (popVariance l)

/-- The row-major enumeration of the `BUCKET_COUNT × BUCKET_COUNT` keys.
`Object.values(bucketErrors)` iterates keys in insertion order; the
aggregates below (a sum and a count) are order-independent, and keys the
loop never created hold `[]`, which the `length < 10` guard skips, so
enumerating all grid keys in a fixed order is observationally faithful. -/
def allKeys (count : ℕ) : List (ℕ × ℕ) :=
  (List.range count).flatMap (fun i => (List.range count).map (fun j => (i, j)))

/-- The `stdDevs` list of `calculateLambdaErrors`: the population standard
deviation of every bucket list holding at least 10 lambdas. -/
noncomputable def stdDevs (count : ℕ) (data : List Sample) (rpmB loadB : List ℚ)
    (table : ℕ → ℕ → Option ℚ) : List ℝ :=
  (allKeys count).filterMap (fun k =>
    let lambdas := bucketErrors count data rpmB loadB table k
    if 10 ≤ lambdas.length then some (popStdDev lambdas) else none)

/-- Models `avgStdDev`: mean of `stdDevs`, `0` when no bucket qualified. -/
noncomputable def avgStdDev (count : ℕ) (data : List Sample) (rpmB loadB : List ℚ)
    (table : ℕ → ℕ → Option ℚ) : ℝ :=
  let s := stdDevs count data rpmB loadB table
  if 0 < s.length then s.sum / s.length else 0

/-- Models `bucketsAnalyzed`: the number of buckets contributing to `avgStdDev`. -/
noncomputable def bucketsAnalyzed (count : ℕ) (data : List Sample) (rpmB loadB : List ℚ)
    (table : ℕ → ℕ → Option ℚ) : ℕ :=
  (stdDevs count data rpmB loadB table).length

/-- Models `Math.min(...values)` on a non-empty list (the empty case is guarded in
the source by `values.length > 1`). -/
def listMin : List ℚ → ℚ
  | [] => 0
  | x :: xs => xs.foldl min x

/-- Models `Math.max(...values)` on a non-empty list. -/
def listMax : List ℚ → ℚ
  | [] => 0
  | x :: xs => xs.foldl max x

/-- The per-bucket record built by the cross-session analysis
(`meta_analysis.js`, `bucketStats[bucketKey]`). -/
structure CrossStats where
  filesWithData : ℕ
  values : List ℚ
  mean : ℚ
  stdDev : ℝ
  cv : ℝ
  min : ℚ
  max : ℚ
  range : ℚ

/-- The cross-session statistics for one bucket: collect the non-`null`
per-session medians; with at least two contributing sessions, build the
population statistics (`values.length > 1` guard in the source), else the
bucket is excluded (`none`). -/
noncomputable def bucketStats (medians : List (Option ℚ)) : Option CrossStats :=
  let values := medians.filterMap id
  if 1 < values.length then
    let mean := listMean values
    let stdDev := Real.sqrt (popVariance values)
    some { filesWithData := values.length
           values := values
           mean := mean
           stdDev := stdDev
           cv := stdDev / (mean : ℝ) * 100
           min := listMin values
           max := listMax values
           range := listMax values - listMin values }
  else none

/-! ## Generic helper lemmas -/

theorem find?_range'_eq_some {p : ℕ → Bool} :
    ∀ {n s i : ℕ}, ((List.range' s n).find? p = some i ↔
      s ≤ i ∧ i < s + n ∧ p i ∧ ∀ k, s ≤ k → k < i → ¬ p k) := by
  intro n
  induction n with
  | zero => intro s i; simp; omega
  | succ n ih =>
    intro s i
    rw [List.range'_succ]
    by_cases hp : p s
    · rw [List.find?_cons_of_pos _ hp]
      constructor
      · rintro h
        have : s = i := by simpa using h
        subst this
        exact ⟨le_refl s, by omega, hp, fun k hk1 hk2 => by omega⟩
      · rintro ⟨h1, _, _, h4⟩
        rcases Nat.eq_or_lt_of_le h1 with h | h
        · simp [h]
        · exact absurd hp (h4 s (le_refl s) h)
    · rw [List.find?_cons_of_neg _ hp]
      rw [ih]
      constructor
      · rintro ⟨h1, h2, h3, h4⟩
        refine ⟨by omega, by omega, h3, fun k hk1 hk2 => ?_⟩
        rcases Nat.eq_or_lt_of_le hk1 with h | h
        · exact h ▸ hp
        · exact h4 k h hk2
      · rintro ⟨h1, h2, h3, h4⟩
        have hsi : s ≠ i := fun h => hp (h ▸ h3)
        refine ⟨by omega, by omega, h3, fun k hk1 hk2 => h4 k (by omega) hk2⟩

theorem findSome?_range'_eq_some {β : Type*} {f : ℕ → Option β} :
    ∀ {n s : ℕ} {b : β}, ((List.range' s n).findSome? f = some b ↔
      ∃ j, s ≤ j ∧ j < s + n ∧ f j = some b ∧ ∀ k, s ≤ k → k < j → f k = none) := by
  intro n
  induction n with
  | zero => intro s b; simp; omega
  | succ n ih =>
    intro s b
    rw [List.range'_succ, List.findSome?_cons]
    rcases hfs : f s with _ | c
    · simp only [ih]
      constructor
      · rintro ⟨j, h1, h2, h3, h4⟩
        refine ⟨j, by omega, by omega, h3, fun k hk1 hk2 => ?_⟩
        rcases Nat.eq_or_lt_of_le hk1 with h | h
        · exact h ▸ hfs
        · exact h4 k h hk2
      · rintro ⟨j, h1, h2, h3, h4⟩
        have : s ≠ j := fun h => by rw [← h, hfs] at h3; exact Option.noConfusion h3
        exact ⟨j, by omega, by omega, h3, fun k hk1 hk2 => h4 k (by omega) hk2⟩
    · constructor
      · rintro h
        exact ⟨s, le_refl s, by omega, hfs.trans h, fun k hk1 hk2 => by omega⟩
      · rintro ⟨j, h1, h2, h3, h4⟩
        rcases Nat.eq_or_lt_of_le h1 with h | h
        · rw [← h] at h3; rw [hfs] at h3; exact h3
        · rw [h4 s (le_refl s) h] at hfs; exact Option.noConfusion hfs

theorem findSome?_range'_eq_none {β : Type*} {f : ℕ → Option β} :
    ∀ {n s : ℕ}, ((List.range' s n).findSome? f = none ↔
      ∀ j, s ≤ j → j < s + n → f j = none) := by
  intro n
  induction n with
  | zero => intro s; simp; omega
  | succ n ih =>
    intro s
    rw [List.range'_succ, List.findSome?_cons]
    rcases hfs : f s with _ | c
    · simp only [ih]
      constructor
      · intro h j hj1 hj2
        rcases Nat.eq_or_lt_of_le hj1 with h' | h'
        · exact h' ▸ hfs
        · exact h j h' (by omega)
      · intro h j hj1 hj2
        exact h j (by omega) (by omega)
    · constructor
      · intro h; exact Option.noConfusion h
      · intro h
        rw [h s (le_refl s) (by omega)] at hfs
        exact Option.noConfusion hfs

theorem getD_eq_getElem {α : Type*} [Inhabited α] (l : List α) (d : α) {i : ℕ}
    (h : i < l.length) : l.getD i d = l[i] := by
  simp [List.getD_eq_getElem?_getD, List.getElem?_eq_getElem h]

/-! ## Aggregator (C5): `median` -/

theorem median_sorted_perm (l s : List ℚ) (hne : l ≠ []) (hperm : s.Perm l)
    (hsort : s.Sorted (· ≤ ·)) :
    median l = (if s.length % 2 = 0 then
        some ((s.getD (s.length / 2 - 1) 0 + s.getD (s.length / 2) 0) / 2)
      else some (s.getD (s.length / 2) 0)) := by
  have hins : l.insertionSort (· ≤ ·) = s :=
    List.eq_of_perm_of_sorted ((List.perm_insertionSort _ l).trans hperm.symm)
      (List.sorted_insertionSort _ l) hsort
  rw [median, if_neg hne, hins]

/-- C5: for every non-empty list, `median` equals the even/odd central rule
on the ascending sort (hence is invariant under input reordering), the
Scenario-A values hold, and the empty list yields `none`, distinct from
`some 0`. -/
theorem c5_median_correct :
    (∀ l l' : List ℚ, l.Perm l' → median l = median l') ∧
    (∀ l s : List ℚ, l ≠ [] → s.Perm l → s.Sorted (· ≤ ·) →
      median l = (if s.length % 2 = 0 then
          some ((s.getD (s.length / 2 - 1) 0 + s.getD (s.length / 2) 0) / 2)
        else some (s.getD (s.length / 2) 0))) ∧
    median [100, 200, 300] = some 200 ∧
    median [100, 200, 300, 400] = some 250 ∧
    median [] = none ∧ median [] ≠ some 0 := by
  refine ⟨?_, median_sorted_perm,
    by norm_num [median, List.insertionSort, List.orderedInsert];
       exact fun h => absurd h (by simp),
    by norm_num [median, List.insertionSort, List.orderedInsert];
       exact fun h => absurd h (by simp),
    rfl, by simp [median]⟩
  intro l l' hperm
  rcases eq_or_ne l [] with rfl | hne
  · rw [← hperm.nil_eq]
  · have hne' : l' ≠ [] := fun h => hne (List.Perm.eq_nil (h ▸ hperm))
    have h1 := median_sorted_perm l (l.insertionSort (· ≤ ·)) hne
      (List.perm_insertionSort _ l) (List.sorted_insertionSort _ l)
    have h2 := median_sorted_perm l' (l.insertionSort (· ≤ ·)) hne'
      ((List.perm_insertionSort _ l).trans hperm) (List.sorted_insertionSort _ l)
    rw [h1, h2]

/-- Witness for C5 at concrete inputs: `median` is reordering-invariant on
`[300, 100, 200]` vs `[100, 200, 300]`, and the sorted-rule instance. -/
theorem c5_median_correct_witness :
    median [300, 100, 200] = median [100, 200, 300] ∧
    median [100, 200, 300, 400] =
      (if ([100, 200, 300, 400] : List ℚ).length % 2 = 0 then
        some ((([100, 200, 300, 400] : List ℚ).getD 1 0 +
          ([100, 200, 300, 400] : List ℚ).getD 2 0) / 2)
      else some (([100, 200, 300, 400] : List ℚ).getD 2 0)) :=
  ⟨c5_median_correct.1 [300, 100, 200] [100, 200, 300] (by decide),
   c5_median_correct.2.1 [100, 200, 300, 400] [100, 200, 300, 400] (by decide)
     (by decide) (by decide)⟩

/-! ## Bucketer (C4, C10): `getBucketIndex` -/

theorem getBucketIndex_eq_nat_iff (count : ℕ) (v : ℚ) (b : List ℚ) (i : ℕ) (hi : i < count) :
    getBucketIndex count v b = (i : Int) ↔
      ((b.getD i 0 ≤ v ∧ v < b.getD (i+1) 0) ∧
        ∀ k, k < i → ¬(b.getD k 0 ≤ v ∧ v < b.getD (k+1) 0)) ∨
      ((∀ k, k < count → ¬(b.getD k 0 ≤ v ∧ v < b.getD (k+1) 0)) ∧
        v = b.getD count 0 ∧ i = count - 1 ∧ 0 < count) := by
  rw [getBucketIndex]
  rcases hfind : (List.range count).find?
      (fun i => decide (b.getD i 0 ≤ v ∧ v < b.getD (i+1) 0)) with _ | j
  · simp only [hfind]
    rw [List.find?_eq_none] at hfind
    simp only [List.mem_range, decide_eq_true_eq] at hfind
    constructor
    · intro h
      split at h
      · rename_i hv
        exact Or.inr ⟨fun k hk => hfind k hk, hv, by omega, by omega⟩
      · exact absurd h (by omega)
    · rintro (⟨hin, _⟩ | ⟨_, hv, hieq, hpos⟩)
      · exact absurd hin (hfind i hi)
      · rw [if_pos hv]; omega
  · simp only [hfind]
    have hmem := List.mem_range.1 (List.mem_of_find?_eq_some hfind)
    have hj := List.find?_some hfind
    simp only [decide_eq_true_eq] at hj
    rw [List.range_eq_range'] at hfind
    rw [find?_range'_eq_some] at hfind
    constructor
    · intro h
      have hij : j = i := by omega
      subst hij
      exact Or.inl ⟨hj, fun k hk => by
        have := hfind.2.2.2 k (Nat.zero_le k) hk
        simpa using this⟩
    · rintro (⟨hin, hfirst⟩ | ⟨hnone, _⟩)
      · have hji : ¬ j < i := fun h => hfirst j h hj
        have hij : ¬ i < j := fun h => by
          have := hfind.2.2.2 i (Nat.zero_le i) h
          simp only [decide_eq_true_eq] at this
          exact this hin
        omega
      · exact absurd hj (hnone j hmem)

/-- C4: over a non-decreasing boundaries array of `count + 1` cut points,
`getBucketIndex` returns the first interval index containing the value,
the last index exactly at the final boundary, and `-1` otherwise; it is
total on `[boundaries[0], boundaries[count]]` and any value strictly
inside lies in exactly one interval. -/
theorem c4_bucket_of (count : ℕ) (v : ℚ) (b : List ℚ)
    (hlen : b.length = count + 1) (hmono : b.Sorted (· ≤ ·)) :
    (∀ i : ℕ, i < count → (b.getD i 0 ≤ v ∧ v < b.getD (i+1) 0) →
      (∀ k, k < i → ¬(b.getD k 0 ≤ v ∧ v < b.getD (k+1) 0)) →
      getBucketIndex count v b = (i : Int)) ∧
    (v = b.getD count 0 → 0 < count →
      getBucketIndex count v b = (count : Int) - 1) ∧
    ((v < b.getD 0 0 ∨ b.getD count 0 < v) → getBucketIndex count v b = -1) ∧
    (b.getD 0 0 ≤ v → v ≤ b.getD count 0 → 0 < count →
      getBucketIndex count v b ≠ -1) ∧
    (b.getD 0 0 ≤ v → v < b.getD count 0 →
      ∃! i : ℕ, i < count ∧ b.getD i 0 ≤ v ∧ v < b.getD (i+1) 0) := by
  have bmono : ∀ i j : ℕ, i ≤ j → j < b.length → b.getD i 0 ≤ b.getD j 0 := by
    intro i j hij hj
    rw [getD_eq_getElem _ _ (lt_of_le_of_lt hij hj), getD_eq_getElem _ _ hj]
    rcases eq_or_lt_of_le hij with rfl | h
    · exact le_refl _
    · exact List.pairwise_iff_getElem.1 hmono i j (lt_of_le_of_lt hij hj) hj h
  have huniq : ∀ i j : ℕ, i < count → j < count →
      (b.getD i 0 ≤ v ∧ v < b.getD (i+1) 0) →
      (b.getD j 0 ≤ v ∧ v < b.getD (j+1) 0) → i = j := by
    intro i j hi hj hvi hvj
    by_contra hne
    rcases Nat.lt_or_ge i j with h | h
    · exact absurd (lt_of_lt_of_le hvi.2 (le_trans (bmono (i+1) j (by omega) (by omega)) hvj.1))
        (lt_irrefl v)
    · have h' : j < i := by omega
      exact absurd (lt_of_lt_of_le hvj.2 (le_trans (bmono (j+1) i (by omega) (by omega)) hvi.1))
        (lt_irrefl v)
  have hexists : b.getD 0 0 ≤ v → v < b.getD count 0 →
      ∃ i : ℕ, i < count ∧ b.getD i 0 ≤ v ∧ v < b.getD (i+1) 0 := by
    intro hlow hhigh
    classical
    set P : ℕ → Prop := fun i => b.getD i 0 ≤ v with hP
    have hP0 : P 0 := hlow
    set k := Nat.findGreatest P count with hk
    have hPk : P k := Nat.findGreatest_spec (Nat.zero_le count) hP0
    have hkle : k ≤ count := Nat.findGreatest_le count
    have hkc : k < count := by
      rcases eq_or_lt_of_le hkle with h | h
      · exact absurd (h ▸ hPk) (not_le.2 hhigh)
      · exact h
    refine ⟨k, hkc, hPk, ?_⟩
    by_contra hge
    push_neg at hge
    exact Nat.findGreatest_is_greatest (k := k + 1) (Nat.lt_succ_self k) (by omega) hge
  refine ⟨?_, ?_, ?_, ?_, ?_⟩
  · intro i hi hin hfirst
    exact (getBucketIndex_eq_nat_iff count v b i hi).2 (Or.inl ⟨hin, hfirst⟩)
  · intro hv hpos
    have hnone : ∀ k, k < count → ¬(b.getD k 0 ≤ v ∧ v < b.getD (k+1) 0) := by
      intro k hk hin
      have : v < b.getD count 0 :=
        lt_of_lt_of_le hin.2 (bmono (k+1) count (by omega) (by omega))
      exact absurd (hv ▸ this) (lt_irrefl v)
    have := (getBucketIndex_eq_nat_iff count v b (count - 1) (by omega)).2
      (Or.inr ⟨hnone, hv, rfl, hpos⟩)
    rw [this]; omega
  · intro hout
    rw [getBucketIndex]
    have hnone : ∀ k, k < count → ¬(b.getD k 0 ≤ v ∧ v < b.getD (k+1) 0) := by
      intro k hk hin
      rcases hout with h | h
      · have h1 : b.getD 0 0 ≤ v := le_trans (bmono 0 k (Nat.zero_le k) (by omega)) hin.1
        exact absurd h (not_lt.2 h1)
      · have h1 : v < b.getD count 0 :=
          lt_of_lt_of_le hin.2 (bmono (k+1) count (by omega) (by omega))
        exact absurd (lt_trans h1 h) (lt_irrefl v)
    have hfind : (List.range count).find?
        (fun i => decide (b.getD i 0 ≤ v ∧ v < b.getD (i+1) 0)) = none := by
      rw [List.find?_eq_none]
      intro a ha
      simpa using hnone a (List.mem_range.1 ha)
    rw [hfind]
    have hvne : v ≠ b.getD count 0 := by
      rcases hout with h | h
      · exact ne_of_lt (lt_of_lt_of_le h (bmono 0 count (Nat.zero_le count) (by omega)))
      · exact (ne_of_lt h).symm
    rw [if_neg hvne]
  · intro hlow hhigh hpos hm1
    rw [getBucketIndex] at hm1
    rcases hfind : (List.range count).find?
        (fun i => decide (b.getD i 0 ≤ v ∧ v < b.getD (i+1) 0)) with _ | j
    · simp only [hfind] at hm1
      rcases eq_or_lt_of_le hhigh with heq | hlt
      · rw [if_pos heq] at hm1
        omega
      · rcases hexists hlow hlt with ⟨i, hi, hin⟩
        rw [List.find?_eq_none] at hfind
        have := hfind i (List.mem_range.2 hi)
        simp only [decide_eq_true_eq] at this
        exact this hin
    · simp only [hfind] at hm1
      omega
  · intro hlow hhigh
    rcases hexists hlow hhigh with ⟨i, hi, hin⟩
    exact ⟨i, ⟨hi, hin⟩, fun j hj => huniq j i hj.1 hi hj.2 hin⟩

/-- Witness for C4 on `boundaries = [0, 10, 20, 30]`: value 5 lands in the
first interval, value 30 (the final boundary) in the last bucket, and
value 31 (outside) yields `-1`. -/
theorem c4_bucket_of_witness :
    getBucketIndex 3 (5 : ℚ) [0, 10, 20, 30] = 0 ∧
    getBucketIndex 3 (30 : ℚ) [0, 10, 20, 30] = 2 ∧
    getBucketIndex 3 (31 : ℚ) [0, 10, 20, 30] = -1 := by
  have h := c4_bucket_of 3 (5 : ℚ) [0, 10, 20, 30] (by decide) (by decide)
  have h30 := c4_bucket_of 3 (30 : ℚ) [0, 10, 20, 30] (by decide) (by decide)
  have h31 := c4_bucket_of 3 (31 : ℚ) [0, 10, 20, 30] (by decide) (by decide)
  refine ⟨h.1 0 (by decide) (by decide) (fun k hk => absurd hk (by omega)), ?_, ?_⟩
  · have := h30.2.1 (by decide) (by decide)
    simpa using this
  · exact h31.2.2.1 (Or.inr (by decide))

/-- C10: `getBucketIndex` only returns `-1` or an index in `[0, count)`;
hence any consumer that guards on `!== -1` (as `assignToBuckets` and the
Validator's table lookup do) converts it to an in-range row/column, and
`assignToBuckets` never writes outside the `count × count` grid. -/
theorem c10_bucket_index_range :
    (∀ (count : ℕ) (v : ℚ) (b : List ℚ),
      getBucketIndex count v b = -1 ∨
        (0 ≤ getBucketIndex count v b ∧ getBucketIndex count v b < (count : Int))) ∧
    (∀ (count : ℕ) (v : ℚ) (b : List ℚ),
      getBucketIndex count v b ≠ -1 → (getBucketIndex count v b).toNat < count) ∧
    (∀ (count : ℕ) (data : List Sample) (rpmB loadB : List ℚ) (i j : ℕ),
      count ≤ i ∨ count ≤ j → assignToBuckets count data rpmB loadB i j = []) := by
  have hrange : ∀ (count : ℕ) (v : ℚ) (b : List ℚ),
      getBucketIndex count v b = -1 ∨
        (0 ≤ getBucketIndex count v b ∧ getBucketIndex count v b < (count : Int)) := by
    intro count v b
    rw [getBucketIndex]
    rcases hfind : (List.range count).find?
        (fun i => decide (b.getD i 0 ≤ v ∧ v < b.getD (i+1) 0)) with _ | j
    · simp only [hfind]
      split
      · rcases Nat.eq_zero_or_pos count with rfl | hpos
        · exact Or.inl rfl
        · exact Or.inr ⟨by omega, by omega⟩
      · exact Or.inl rfl
    · simp only [hfind]
      have hj := List.mem_range.1 (List.mem_of_find?_eq_some hfind)
      exact Or.inr ⟨by omega, by omega⟩
  have htoNat : ∀ (count : ℕ) (v : ℚ) (b : List ℚ),
      getBucketIndex count v b ≠ -1 → (getBucketIndex count v b).toNat < count := by
    intro count v b h
    rcases hrange count v b with h' | h'
    · exact absurd h' h
    · omega
  refine ⟨hrange, htoNat, ?_⟩
  intro count data rpmB loadB
  rw [assignToBuckets]
  have key : ∀ (l : List Sample) (acc : ℕ → ℕ → List Sample),
      (∀ i j, count ≤ i ∨ count ≤ j → acc i j = []) →
      ∀ i j, count ≤ i ∨ count ≤ j →
        (l.foldl (fun acc p =>
          let rpmBucket := getBucketIndex count p.rpm rpmB
          let loadBucket := getBucketIndex count p.load loadB
          if rpmBucket ≠ -1 ∧ loadBucket ≠ -1 then
            fun i j =>
              if i = rpmBucket.toNat ∧ j = loadBucket.toNat then acc i j ++ [p]
              else acc i j
          else acc) acc) i j = [] := by
    intro l
    induction l with
    | nil => intro acc hacc i j hij; exact hacc i j hij
    | cons p l ih =>
      intro acc hacc i j hij
      rw [List.foldl_cons]
      refine ih _ ?_ i j hij
      intro i' j' hij'
      dsimp only
      split
      · rename_i hvalid
        have h1 := htoNat count p.rpm rpmB hvalid.1
        have h2 := htoNat count p.load loadB hvalid.2
        dsimp only
        rw [if_neg (by omega)]
        exact hacc i' j' hij'
      · exact hacc i' j' hij'
  exact fun i j hij => key data _ (fun _ _ _ => rfl) i j hij

/-- Witness for C10: with three buckets, a value inside the range resolves
to an in-range index, and an out-of-grid cell of `assignToBuckets` is
empty. -/
theorem c10_bucket_index_range_witness :
    (getBucketIndex 3 (5 : ℚ) [0, 10, 20, 30]).toNat < 3 ∧
    assignToBuckets 3 [⟨0, 1000, 2, 1, 50⟩] [0, 10, 20, 30] [0, 50, 80, 100] 5 0 = [] :=
  ⟨c10_bucket_index_range.2.1 3 5 [0, 10, 20, 30] (by decide),
   c10_bucket_index_range.2.2 3 [⟨0, 1000, 2, 1, 50⟩] [0, 10, 20, 30] [0, 50, 80, 100]
     5 0 (Or.inl (by omega))⟩

/-! ## Delay Detector (C1, C2): `findDelaysInSequence` -/

theorem sortByTime_eq_self {data : List Sample} (hs : List.Sorted timeLE data) :
    sortByTime data = data :=
  List.Sorted.insertionSort_eq hs

theorem tryResponse_eq_some_iff (cfg : Config) (d : List Sample) (i j : ℕ) (t : ℚ) :
    tryResponse cfg (d.getD i default) (d.getD j default)
        (-(sign ((d.getD i default).pw - (d.getD (i-1) default).pw))) = some t ↔
      respondsAt cfg d i j ∧
        t = ((d.getD j default).time - (d.getD i default).time) * 1000 := by
  rw [tryResponse, respondsAt]
  split
  · rename_i h
    simp only [Option.some.injEq]
    exact ⟨fun ht => ⟨h, ht.symm⟩, fun ⟨_, ht⟩ => ht.symm⟩
  · rename_i h
    constructor
    · intro h'
      exact absurd h' (by simp)
    · rintro ⟨hr, ht⟩
      exact absurd hr h

theorem processEvent_eq_some_iff (cfg : Config) (d : List Sample) (i : ℕ) (t : ℚ) :
    processEvent cfg d i = some t ↔
      cfg.PW_CHANGE_THRESHOLD ≤ jsAbs ((d.getD i default).pw - (d.getD (i-1) default).pw) ∧
      ∃ j, i + 1 ≤ j ∧ j < min (i + 100) d.length ∧ respondsAt cfg d i j ∧
        (∀ k, i + 1 ≤ k → k < j → ¬ respondsAt cfg d i k) ∧
        t = ((d.getD j default).time - (d.getD i default).time) * 1000 := by
  rw [processEvent]
  split
  · rename_i h
    constructor
    · intro h'
      exact absurd h' (by simp)
    · rintro ⟨habs, _⟩
      exact absurd (lt_of_lt_of_le h habs) (lt_irrefl _)
  · rename_i h
    rw [findSome?_range'_eq_some]
    constructor
    · rintro ⟨j, hj1, hj2, hj3, hj4⟩
      rw [tryResponse_eq_some_iff] at hj3
      refine ⟨le_of_not_lt h, j, hj1, by omega, hj3.1, fun k hk1 hk2 => ?_, hj3.2⟩
      intro hr
      have hnone := hj4 k hk1 hk2
      have hsome := (tryResponse_eq_some_iff cfg d i k
        (((d.getD k default).time - (d.getD i default).time) * 1000)).2 ⟨hr, rfl⟩
      rw [hnone] at hsome
      exact Option.noConfusion hsome
    · rintro ⟨_, j, hj1, hj2, hj3, hj4, hj5⟩
      refine ⟨j, hj1, by omega, ?_, fun k hk1 hk2 => ?_⟩
      · rw [tryResponse_eq_some_iff]
        exact ⟨hj3, hj5⟩
      · rcases htr : tryResponse cfg (d.getD i default) (d.getD k default)
          (-(sign ((d.getD i default).pw - (d.getD (i-1) default).pw))) with _ | t'
        · rfl
        · rw [tryResponse_eq_some_iff] at htr
          exact absurd htr.1 (hj4 k hk1 hk2)

/-- C1: on a time-sorted bucket list, the Delay Detector visits exactly the
indices `i = 1 .. n-2`, produces nothing when `|pw[i]-pw[i-1]|` is below
`PW_CHANGE_THRESHOLD`, and otherwise records
`timeDiffMs = (time[j]-time[i])*1000` for the first
`j ∈ [i+1, min(i+100, n))` whose lambda response qualifies
(`respondsAt`), producing at most one measurement per event and none when
no such `j` exists. -/
theorem c1_delay_detector (cfg : Config) (data : List Sample)
    (hs : List.Sorted timeLE data) :
    findDelaysInSequence cfg data =
      (List.range' 1 (data.length - 2)).filterMap (processEvent cfg data) ∧
    ∀ i t, processEvent cfg data i = some t ↔
      (cfg.PW_CHANGE_THRESHOLD ≤
          jsAbs ((data.getD i default).pw - (data.getD (i-1) default).pw) ∧
        ∃ j, i + 1 ≤ j ∧ j < min (i + 100) data.length ∧
          respondsAt cfg data i j ∧
          (∀ k, i + 1 ≤ k → k < j → ¬ respondsAt cfg data i k) ∧
          t = ((data.getD j default).time - (data.getD i default).time) * 1000) := by
  constructor
  · simp only [findDelaysInSequence, sortByTime_eq_self hs]
  · exact fun i t => processEvent_eq_some_iff cfg data i t

/-- Witness for C1: a PW rise of 2 ms at `i = 1` answered by a lambda drop
of 2 at `j = 2`, 1000 ms later, is recorded as exactly one 1000 ms
measurement. -/
theorem c1_delay_detector_witness :
    processEvent ⟨1, 1, 2000, 3⟩
      [⟨0, 1000, 1, 5, 50⟩, ⟨1, 1000, 3, 5, 50⟩, ⟨2, 1000, 3, 3, 50⟩] 1 =
      some 1000 :=
  ((c1_delay_detector ⟨1, 1, 2000, 3⟩
      [⟨0, 1000, 1, 5, 50⟩, ⟨1, 1000, 3, 5, 50⟩, ⟨2, 1000, 3, 3, 50⟩]
      (by decide)).2 1 1000).mpr
    ⟨by with_unfolding_all decide, 2, by omega, by decide,
     by with_unfolding_all decide,
     fun k hk1 hk2 => absurd (lt_of_le_of_lt hk1 hk2) (lt_irrefl 2),
     by with_unfolding_all decide⟩

/-- Counterexample for C2 as stated: with two samples sharing a timestamp
(permitted by the data model), the detector emits `timeDiffMs = 0`,
violating `timeDiffMs > 0`. -/
theorem c2_counterexample :
    List.Sorted timeLE
      [⟨0, 1000, 1, 5, 50⟩, ⟨1, 1000, 3, 5, 50⟩, ⟨1, 1000, 3, 3, 50⟩] ∧
    findDelaysInSequence ⟨1, 1, 2000, 3⟩
      [⟨0, 1000, 1, 5, 50⟩, ⟨1, 1000, 3, 5, 50⟩, ⟨1, 1000, 3, 3, 50⟩] = [0] ∧
    ¬ (∀ t ∈ findDelaysInSequence ⟨1, 1, 2000, 3⟩
      [⟨0, 1000, 1, 5, 50⟩, ⟨1, 1000, 3, 5, 50⟩, ⟨1, 1000, 3, 3, 50⟩], 0 < t) := by
  refine ⟨by decide, by with_unfolding_all decide, fun h => ?_⟩
  exact absurd (h 0 (by with_unfolding_all decide)) (by decide)

/-- C2 (amended): on time-sorted input every emitted measurement satisfies
`0 ≤ timeDiffMs ≤ MAX_DELAY_MS`; the strict lower bound `0 < timeDiffMs`
holds whenever the timestamps are strictly increasing (equal timestamps,
which the data model permits, can produce a measurement of exactly 0). -/
theorem c2_delay_bounds (cfg : Config) (data : List Sample)
    (hs : List.Sorted timeLE data) :
    (∀ t ∈ findDelaysInSequence cfg data, 0 ≤ t ∧ t ≤ cfg.MAX_DELAY_MS) ∧
    (List.Sorted (fun a b : Sample => a.time < b.time) data →
      ∀ t ∈ findDelaysInSequence cfg data, 0 < t) := by
  have hs' : List.Pairwise timeLE data := hs
  have hkey : ∀ t ∈ findDelaysInSequence cfg data, ∃ i j, i < j ∧ j < data.length ∧
      t = ((data.getD j default).time - (data.getD i default).time) * 1000 ∧
      t ≤ cfg.MAX_DELAY_MS := by
    intro t ht
    rw [show findDelaysInSequence cfg data =
        (List.range' 1 (data.length - 2)).filterMap (processEvent cfg data) from by
      simp only [findDelaysInSequence, sortByTime_eq_self hs]] at ht
    rcases List.mem_filterMap.1 ht with ⟨i, _, hpe⟩
    rw [processEvent_eq_some_iff] at hpe
    rcases hpe with ⟨_, j, hj1, hj2, hresp, _, ht_eq⟩
    refine ⟨i, j, by omega, by omega, ht_eq, ?_⟩
    rw [ht_eq]
    exact hresp.2.2
  constructor
  · intro t ht
    rcases hkey t ht with ⟨i, j, hij, hjlen, ht_eq, hmax⟩
    have hmono : (data.getD i default).time ≤ (data.getD j default).time := by
      rw [getD_eq_getElem _ _ (by omega), getD_eq_getElem _ _ hjlen]
      exact List.pairwise_iff_getElem.1 hs' i j (by omega) hjlen hij
    refine ⟨?_, hmax⟩
    rw [ht_eq]
    have h0 : (0 : ℚ) ≤ (data.getD j default).time - (data.getD i default).time := by
      linarith
    nlinarith
  · intro hstrict t ht
    rcases hkey t ht with ⟨i, j, hij, hjlen, ht_eq, _⟩
    have hstrict' : List.Pairwise (fun a b : Sample => a.time < b.time) data := hstrict
    have hmono : (data.getD i default).time < (data.getD j default).time := by
      rw [getD_eq_getElem _ _ (by omega), getD_eq_getElem _ _ hjlen]
      exact List.pairwise_iff_getElem.1 hstrict' i j (by omega) hjlen hij
    rw [ht_eq]
    have h0 : (0 : ℚ) < (data.getD j default).time - (data.getD i default).time := by
      linarith
    nlinarith

/-- Witness for C2 (amended) on a strictly increasing store: the single
1000 ms measurement is nonnegative, at most `MAX_DELAY_MS`, and strictly
positive. -/
theorem c2_delay_bounds_witness :
    (1000 : ℚ) ∈ findDelaysInSequence ⟨1, 1, 2000, 3⟩
      [⟨0, 1000, 1, 5, 50⟩, ⟨1, 1000, 3, 5, 50⟩, ⟨2, 1000, 3, 3, 50⟩] ∧
    (0 ≤ (1000 : ℚ) ∧ (1000 : ℚ) ≤ (2000 : ℚ)) ∧ 0 < (1000 : ℚ) :=
  ⟨by with_unfolding_all decide,
   (c2_delay_bounds ⟨1, 1, 2000, 3⟩
      [⟨0, 1000, 1, 5, 50⟩, ⟨1, 1000, 3, 5, 50⟩, ⟨2, 1000, 3, 3, 50⟩]
      (by decide)).1 1000 (by with_unfolding_all decide),
   (c2_delay_bounds ⟨1, 1, 2000, 3⟩
      [⟨0, 1000, 1, 5, 50⟩, ⟨1, 1000, 3, 5, 50⟩, ⟨2, 1000, 3, 3, 50⟩]
      (by decide)).2 (by decide) 1000 (by with_unfolding_all decide)⟩

/-! ## Table Builder (C9): `generateTable` and axis midpoints -/

/-- C9: for in-range bucket indices, the axis value is the interval
midpoint rounded to the nearest integer, and each delay-table cell is the
bucket median rounded to one decimal, `none` when the bucket has no
measurements. -/
theorem c9_table_builder (count : ℕ) (boundaries : List ℚ)
    (buckets : ℕ → ℕ → List ℚ) (i j : ℕ) (hi : i < count) (hj : j < count) :
    (axisValues count boundaries).getD i 0 =
      jsRound ((boundaries.getD i 0 + boundaries.getD (i+1) 0) / 2) ∧
    ((generateTable count buckets).getD i []).getD j none =
      (median (buckets i j)).map round1 ∧
    (buckets i j = [] →
      ((generateTable count buckets).getD i []).getD j none = none) := by
  have hax : (axisValues count boundaries).getD i 0 =
      jsRound ((boundaries.getD i 0 + boundaries.getD (i+1) 0) / 2) := by
    rw [axisValues, getD_eq_getElem _ _ (by simpa using hi)]
    simp
  have hcell : ((generateTable count buckets).getD i []).getD j none =
      (median (buckets i j)).map round1 := by
    have h1 : (generateTable count buckets).getD i [] =
        (List.range count).map (fun j => (median (buckets i j)).map round1) := by
      rw [generateTable, getD_eq_getElem _ _ (by simpa using hi)]
      simp
    rw [h1, getD_eq_getElem _ _ (by simpa using hj)]
    simp
  refine ⟨hax, hcell, fun h => ?_⟩
  rw [hcell, h]
  rfl

/-- Witness for C9 at `count = 3`, boundaries `[0, 10, 20, 30]`, all-empty
buckets: the first axis value is the rounded midpoint 5, and an empty
bucket's cell is `none`. -/
theorem c9_table_builder_witness :
    (axisValues 3 [0, 10, 20, 30]).getD 0 0 =
      jsRound ((([0, 10, 20, 30] : List ℚ).getD 0 0 +
        ([0, 10, 20, 30] : List ℚ).getD 1 0) / 2) ∧
    ((generateTable 3 (fun _ _ => [])).getD 0 []).getD 0 none = none :=
  ⟨(c9_table_builder 3 [0, 10, 20, 30] (fun _ _ => []) 0 0 (by decide) (by decide)).1,
   (c9_table_builder 3 [0, 10, 20, 30] (fun _ _ => []) 0 0 (by decide) (by decide)).2.2 rfl⟩

/-! ## Nearest-timestamp linear scan: first-arg-min characterization -/

theorem linearScan_foldl_spec (times : List ℚ) (target : ℚ) : ∀ n : ℕ,
    (n = 0 → (List.range n).foldl
      (fun acc i =>
        let diff := jsAbs (times.getD i 0 - target)
        match acc with
        | none => some (i, diff)
        | some (c, m) => if diff < m then some (i, diff) else some (c, m))
      none = none) ∧
    (0 < n → ∃ c m, (List.range n).foldl
      (fun acc i =>
        let diff := jsAbs (times.getD i 0 - target)
        match acc with
        | none => some (i, diff)
        | some (c, m) => if diff < m then some (i, diff) else some (c, m))
      none = some (c, m) ∧ c < n ∧
      m = jsAbs (times.getD c 0 - target) ∧
      (∀ k, k < n → m ≤ jsAbs (times.getD k 0 - target)) ∧
      (∀ k, k < c → m < jsAbs (times.getD k 0 - target))) := by
  intro n
  induction n with
  | zero => exact ⟨fun _ => rfl, fun h => absurd h (lt_irrefl 0)⟩
  | succ n ih =>
    refine ⟨fun h => absurd h (Nat.succ_ne_zero n), fun _ => ?_⟩
    rw [List.range_succ, List.foldl_append, List.foldl_cons, List.foldl_nil]
    rcases Nat.eq_zero_or_pos n with rfl | hn
    · exact ⟨0, jsAbs (times.getD 0 0 - target), rfl, Nat.zero_lt_one, rfl,
        fun k hk => by interval_cases k; exact le_refl _,
        fun k hk => absurd hk (Nat.not_lt_zero k)⟩
    · rcases (ih.2 hn) with ⟨c, m, heq, hc, hm, hall, hfirst⟩
      rw [heq]
      dsimp only
      by_cases hlt : jsAbs (times.getD n 0 - target) < m
      · rw [if_pos hlt]
        refine ⟨n, jsAbs (times.getD n 0 - target), rfl, Nat.lt_succ_self n, rfl,
          fun k hk => ?_, fun k hk => lt_of_lt_of_le hlt (hall k hk)⟩
        rcases Nat.lt_succ_iff_lt_or_eq.1 hk with hk' | rfl
        · exact le_of_lt (lt_of_lt_of_le hlt (hall k hk'))
        · exact le_refl _
      · rw [if_neg hlt]
        refine ⟨c, m, rfl, Nat.lt_succ_of_lt hc, hm, fun k hk => ?_, hfirst⟩
        rcases Nat.lt_succ_iff_lt_or_eq.1 hk with hk' | rfl
        · exact hall k hk'
        · exact le_of_not_lt hlt

theorem linearScan_nil (target : ℚ) : linearScan [] target = none := rfl

theorem linearScan_spec (times : List ℚ) (target : ℚ) (hne : times ≠ []) :
    ∃ c m, linearScan times target = some (c, m) ∧ c < times.length ∧
      m = jsAbs (times.getD c 0 - target) ∧
      (∀ k, k < times.length → m ≤ jsAbs (times.getD k 0 - target)) ∧
      (∀ k, k < c → m < jsAbs (times.getD k 0 - target)) :=
  (linearScan_foldl_spec times target times.length).2
    (List.length_pos.2 hne)

theorem map_time_getD (data : List Sample) (i : ℕ) (h : i < data.length) :
    (data.map (fun s => s.time)).getD i 0 = (data.getD i default).time := by
  rw [getD_eq_getElem _ _ (by simpa using h), getD_eq_getElem _ _ h]
  simp

/-! ## Validator per-sample behaviour (C6) -/

theorem bucketErrors_eq_filter (count : ℕ) (data : List Sample)
    (rpmB loadB : List ℚ) (table : ℕ → ℕ → Option ℚ) (k : ℕ × ℕ) :
    bucketErrors count data rpmB loadB table k =
      (data.filter
        (fun p => decide (recordsPoint count data rpmB loadB table p = some k))).map
        (fun p => p.lambda) := by
  rw [bucketErrors]
  have key : ∀ (l : List Sample) (g : ℕ × ℕ → List ℚ),
      (l.foldl
        (fun acc p =>
          match recordsPoint count data rpmB loadB table p with
          | some key => fun k => if k = key then acc k ++ [p.lambda] else acc k
          | none => acc) g) k =
      g k ++ (l.filter
        (fun p => decide (recordsPoint count data rpmB loadB table p = some k))).map
        (fun p => p.lambda) := by
    intro l
    induction l with
    | nil => intro g; simp
    | cons p l ih =>
      intro g
      rw [List.foldl_cons, List.filter_cons]
      rcases hrec : recordsPoint count data rpmB loadB table p with _ | key
      · rw [ih]
        simp
      · rw [ih]
        by_cases hk : k = key
        · subst hk
          simp
        · have hdec : (decide ((some key : Option (ℕ × ℕ)) = some k)) = false := by
            simp only [decide_eq_false_iff_not, Option.some.injEq]
            exact fun h => absurd h.symm hk
          rw [hdec]
          simp [hk]
  have := key data (fun _ => [])
  simpa using this

/-- C6: a sample contributes nothing when its RPM or load has no bucket or
the table cell is absent; otherwise, with `targetTime = p.time - delay/1000`,
its lambda is recorded into its bucket's list if and only if some (hence
the nearest) sample of the same store lies strictly within 0.5 s of
`targetTime`; the bucket lists are exactly the lambdas of the recorded
samples in store order. -/
theorem c6_validator_per_sample (count : ℕ) (data : List Sample)
    (rpmB loadB : List ℚ) (table : ℕ → ℕ → Option ℚ) :
    (∀ k : ℕ × ℕ, bucketErrors count data rpmB loadB table k =
      (data.filter
        (fun p => decide (recordsPoint count data rpmB loadB table p = some k))).map
        (fun p => p.lambda)) ∧
    (∀ p : Sample,
      (getBucketIndex count p.rpm rpmB = -1 ∨ getBucketIndex count p.load loadB = -1) →
      recordsPoint count data rpmB loadB table p = none) ∧
    (∀ p : Sample,
      ¬(getBucketIndex count p.rpm rpmB = -1 ∨ getBucketIndex count p.load loadB = -1) →
      table (getBucketIndex count p.rpm rpmB).toNat (getBucketIndex count p.load loadB).toNat = none →
      recordsPoint count data rpmB loadB table p = none) ∧
    (∀ p ∈ data, ∀ delay : ℚ,
      ¬(getBucketIndex count p.rpm rpmB = -1 ∨ getBucketIndex count p.load loadB = -1) →
      table (getBucketIndex count p.rpm rpmB).toNat (getBucketIndex count p.load loadB).toNat = some delay →
      ((recordsPoint count data rpmB loadB table p =
          some ((getBucketIndex count p.rpm rpmB).toNat, (getBucketIndex count p.load loadB).toNat)) ↔
        ∃ q ∈ data, jsAbs (q.time - (p.time - delay / 1000)) < 1/2) ∧
      (recordsPoint count data rpmB loadB table p = none ↔
        ¬ ∃ q ∈ data, jsAbs (q.time - (p.time - delay / 1000)) < 1/2)) := by
  refine ⟨bucketErrors_eq_filter count data rpmB loadB table, ?_, ?_, ?_⟩
  · intro p hp
    rw [recordsPoint, if_pos hp]
  · intro p hp htab
    rw [recordsPoint, if_neg hp, htab]
  · intro p hpmem delay hp htab
    have hne : data ≠ [] := fun h => by rw [h] at hpmem; exact absurd hpmem (List.not_mem_nil p)
    have hne' : data.map (fun s => s.time) ≠ [] := by
      simpa using hne
    rcases linearScan_spec (data.map (fun s => s.time)) (p.time - delay / 1000) hne'
      with ⟨c, m, hscan, hc, hm, hall, _⟩
    have hclen : c < data.length := by simpa using hc
    have hmin_iff : m < 1/2 ↔ ∃ q ∈ data, jsAbs (q.time - (p.time - delay / 1000)) < 1/2 := by
      constructor
      · intro hlt
        refine ⟨data.getD c default, ?_, ?_⟩
        · rw [getD_eq_getElem _ _ hclen]
          exact List.mem_iff_getElem.2 ⟨c, hclen, rfl⟩
        · rw [← map_time_getD data c hclen, ← hm]
          exact hlt
      · rintro ⟨q, hq, hqlt⟩
        rcases List.mem_iff_getElem.1 hq with ⟨idx, hidx, rfl⟩
        have h1 := hall idx (by simpa using hidx)
        rw [map_time_getD data idx hidx, getD_eq_getElem _ _ hidx] at h1
        exact lt_of_le_of_lt h1 hqlt
    have hrec : recordsPoint count data rpmB loadB table p =
        (if m < 1/2 then
          some ((getBucketIndex count p.rpm rpmB).toNat,
            (getBucketIndex count p.load loadB).toNat)
         else none) := by
      rw [recordsPoint, if_neg hp, htab]
      dsimp only
      rw [hscan]
    constructor
    · rw [hrec]
      constructor
      · intro h
        split at h
        · exact hmin_iff.1 (by assumption)
        · exact Option.noConfusion h
      · intro h
        rw [if_pos (hmin_iff.2 h)]
    · rw [hrec]
      constructor
      · intro h
        split at h
        · exact Option.noConfusion h
        · rename_i hnot
          intro hex
          exact hnot (hmin_iff.2 hex)
      · intro h
        rw [if_neg (fun hm' => h (hmin_iff.1 hm'))]

/-- Witness for C6: a one-sample store with rpm 5 (bucket 0), load 60
(bucket 1), table delay 100 ms: the nearest point to
`targetTime = -0.1 s` is the sample itself, 0.1 s away, so its lambda is
recorded into bucket `(0, 1)`. -/
theorem c6_validator_per_sample_witness :
    recordsPoint 3 [⟨0, 5, 2, 1, 60⟩] [0, 10, 20, 30] [0, 50, 80, 100]
      (fun _ _ => some 100) ⟨0, 5, 2, 1, 60⟩ =
      some ((getBucketIndex 3 (5 : ℚ) [0, 10, 20, 30]).toNat,
        (getBucketIndex 3 (60 : ℚ) [0, 50, 80, 100]).toNat) :=
  ((c6_validator_per_sample 3 [⟨0, 5, 2, 1, 60⟩] [0, 10, 20, 30] [0, 50, 80, 100]
      (fun _ _ => some 100)).2.2.2
    ⟨0, 5, 2, 1, 60⟩ (by decide) 100 (by decide) rfl).1.mpr
    ⟨⟨0, 5, 2, 1, 60⟩, by decide, by with_unfolding_all decide⟩

/-! ## Validator aggregation (C7) -/

theorem filterMap_ite {α β : Type*} (l : List α) (P : α → Prop) [DecidablePred P]
    (f : α → β) :
    (l.filterMap (fun a => if P a then some (f a) else none)) =
      (l.filter (fun a => decide (P a))).map f := by
  induction l with
  | nil => rfl
  | cons a l ih =>
    rw [List.filterMap_cons, List.filter_cons]
    by_cases h : P a
    · simp [h, ih]
    · simp [h, ih]

theorem recordsPoint_none_of_far (count : ℕ) (data : List Sample)
    (rpmB loadB : List ℚ) (table : ℕ → ℕ → Option ℚ) (p : Sample) (hpmem : p ∈ data)
    (hfar : ∀ delay : ℚ,
      table (getBucketIndex count p.rpm rpmB).toNat (getBucketIndex count p.load loadB).toNat =
        some delay →
      ∀ q ∈ data, 1/2 ≤ jsAbs (q.time - (p.time - delay / 1000))) :
    recordsPoint count data rpmB loadB table p = none := by
  rw [recordsPoint]
  split
  · rfl
  · rename_i hguard
    rcases htab : table (getBucketIndex count p.rpm rpmB).toNat
        (getBucketIndex count p.load loadB).toNat with _ | delay
    · rfl
    · dsimp only
      have hne : data ≠ [] := fun h => by rw [h] at hpmem; exact absurd hpmem (List.not_mem_nil p)
      have hne' : data.map (fun s => s.time) ≠ [] := by simpa using hne
      rcases linearScan_spec (data.map (fun s => s.time)) (p.time - delay / 1000) hne'
        with ⟨c, m, hscan, hc, hm, _, _⟩
      simp only [hscan]
      have hclen : c < data.length := by simpa using hc
      have hq : data.getD c default ∈ data := by
        rw [getD_eq_getElem _ _ hclen]
        exact List.mem_iff_getElem.2 ⟨c, hclen, rfl⟩
      have hge : 1/2 ≤ m := by
        rw [hm, map_time_getD data c hclen]
        exact hfar delay htab (data.getD c default) hq
      rw [if_neg (not_lt.2 hge)]

/-- C7: only buckets with at least 10 recorded lambdas contribute, each as
the population standard deviation of its list; the metric is the mean of
those values and `bucketsAnalyzed` their number; when no bucket qualifies
— in particular when the store has fewer than 2 samples, or every sample's
nearest historical point is at least 0.5 s away — the result is exactly
`avgStdDev = 0` with `bucketsAnalyzed = 0`. -/
theorem c7_validator_aggregate (count : ℕ) (data : List Sample)
    (rpmB loadB : List ℚ) (table : ℕ → ℕ → Option ℚ) :
    (stdDevs count data rpmB loadB table =
      ((allKeys count).filter
        (fun k => decide (10 ≤ (bucketErrors count data rpmB loadB table k).length))).map
        (fun k => popStdDev (bucketErrors count data rpmB loadB table k))) ∧
    (bucketsAnalyzed count data rpmB loadB table =
      ((allKeys count).filter
        (fun k => decide (10 ≤ (bucketErrors count data rpmB loadB table k).length))).length) ∧
    (0 < (stdDevs count data rpmB loadB table).length →
      avgStdDev count data rpmB loadB table =
        (stdDevs count data rpmB loadB table).sum /
          (stdDevs count data rpmB loadB table).length) ∧
    ((∀ k ∈ allKeys count, (bucketErrors count data rpmB loadB table k).length < 10) →
      avgStdDev count data rpmB loadB table = 0 ∧
      bucketsAnalyzed count data rpmB loadB table = 0) ∧
    (data.length < 2 →
      avgStdDev count data rpmB loadB table = 0 ∧
      bucketsAnalyzed count data rpmB loadB table = 0) ∧
    ((∀ p ∈ data, ∀ delay : ℚ,
        table (getBucketIndex count p.rpm rpmB).toNat
          (getBucketIndex count p.load loadB).toNat = some delay →
        ∀ q ∈ data, 1/2 ≤ jsAbs (q.time - (p.time - delay / 1000))) →
      avgStdDev count data rpmB loadB table = 0 ∧
      bucketsAnalyzed count data rpmB loadB table = 0) := by
  have h1 : stdDevs count data rpmB loadB table =
      ((allKeys count).filter
        (fun k => decide (10 ≤ (bucketErrors count data rpmB loadB table k).length))).map
        (fun k => popStdDev (bucketErrors count data rpmB loadB table k)) := by
    rw [stdDevs]
    exact filterMap_ite (allKeys count)
      (fun k => 10 ≤ (bucketErrors count data rpmB loadB table k).length)
      (fun k => popStdDev (bucketErrors count data rpmB loadB table k))
  have h2 : bucketsAnalyzed count data rpmB loadB table =
      ((allKeys count).filter
        (fun k => decide (10 ≤ (bucketErrors count data rpmB loadB table k).length))).length := by
    rw [bucketsAnalyzed, h1, List.length_map]
  have h4 : (∀ k ∈ allKeys count, (bucketErrors count data rpmB loadB table k).length < 10) →
      avgStdDev count data rpmB loadB table = 0 ∧
      bucketsAnalyzed count data rpmB loadB table = 0 := by
    intro h
    have hfilter : (allKeys count).filter
        (fun k => decide (10 ≤ (bucketErrors count data rpmB loadB table k).length)) = [] := by
      rw [List.filter_eq_nil_iff]
      intro a ha
      simp only [decide_eq_true_eq, not_le]
      exact h a ha
    have hsd : stdDevs count data rpmB loadB table = [] := by rw [h1, hfilter]; rfl
    constructor
    · rw [avgStdDev, hsd]
      simp
    · rw [h2, hfilter]
      rfl
  refine ⟨h1, h2, ?_, h4, ?_, ?_⟩
  · intro h
    rw [avgStdDev, if_pos h]
  · intro hlen
    refine h4 (fun k _ => ?_)
    rw [bucketErrors_eq_filter, List.length_map]
    have := List.length_filter_le
      (fun p => decide (recordsPoint count data rpmB loadB table p = some k)) data
    omega
  · intro hfar
    refine h4 (fun k _ => ?_)
    have hfilter : data.filter
        (fun p => decide (recordsPoint count data rpmB loadB table p = some k)) = [] := by
      rw [List.filter_eq_nil_iff]
      intro p hp
      simp only [decide_eq_true_eq]
      rw [recordsPoint_none_of_far count data rpmB loadB table p hp (hfar p hp)]
      exact fun h => Option.noConfusion h
    rw [bucketErrors_eq_filter, hfilter]
    simp

/-- Witness for C7: the empty store (fewer than 2 samples) yields exactly
`avgStdDev = 0` and `bucketsAnalyzed = 0`. -/
theorem c7_validator_aggregate_witness :
    avgStdDev 3 [] [0, 10, 20, 30] [0, 50, 80, 100] (fun _ _ => some 100) = 0 ∧
    bucketsAnalyzed 3 [] [0, 10, 20, 30] [0, 50, 80, 100] (fun _ _ => some 100) = 0 :=
  (c7_validator_aggregate 3 [] [0, 10, 20, 30] [0, 50, 80, 100]
    (fun _ _ => some 100)).2.2.2.2.1 (by decide)

/-! ## Cross-Session Aggregator (C8): `bucketStats` -/

/-- C8: a bucket's cross-session statistics exist exactly when at least 2
sessions contributed a non-absent median; they are the population mean,
the population standard deviation (dividing by N), `CV = stdDev/mean*100`,
min, max and range; for medians `[90, 100, 110]` the mean is 100 and the
standard deviation and CV both lie in `(8.164, 8.165)`, i.e. ≈ 8.165
(reported as ≈ 8.17 %). -/
theorem c8_cross_session_stats :
    (∀ medians : List (Option ℚ),
      bucketStats medians = none ↔ (medians.filterMap id).length ≤ 1) ∧
    (∀ (medians : List (Option ℚ)) (s : CrossStats),
      bucketStats medians = some s →
      s.values = medians.filterMap id ∧
      s.filesWithData = (medians.filterMap id).length ∧
      2 ≤ s.filesWithData ∧
      s.mean = listMean s.values ∧
      s.stdDev = Real.sqrt ((popVariance s.values : ℚ) : ℝ) ∧
      s.cv = s.stdDev / ((s.mean : ℚ) : ℝ) * 100 ∧
      s.min = listMin s.values ∧ s.max = listMax s.values ∧
      s.range = listMax s.values - listMin s.values) ∧
    (∃ s : CrossStats, bucketStats [some 90, some 100, some 110] = some s ∧
      s.filesWithData = 3 ∧ s.mean = 100 ∧
      s.stdDev ^ 2 = ((200/3 : ℚ) : ℝ) ∧
      (8.164 : ℝ) < s.stdDev ∧ s.stdDev < 8.165 ∧
      s.cv = s.stdDev ∧ (8.164 : ℝ) < s.cv ∧ s.cv < 8.165 ∧
      s.min = 90 ∧ s.max = 110 ∧ s.range = 20) := by
  have hgen : ∀ (medians : List (Option ℚ)) (s : CrossStats),
      bucketStats medians = some s →
      s.values = medians.filterMap id ∧
      s.filesWithData = (medians.filterMap id).length ∧
      2 ≤ s.filesWithData ∧
      s.mean = listMean s.values ∧
      s.stdDev = Real.sqrt ((popVariance s.values : ℚ) : ℝ) ∧
      s.cv = s.stdDev / ((s.mean : ℚ) : ℝ) * 100 ∧
      s.min = listMin s.values ∧ s.max = listMax s.values ∧
      s.range = listMax s.values - listMin s.values := by
    intro medians s h
    rw [bucketStats] at h
    split at h
    · rename_i hcond
      have hs := (Option.some.inj h).symm
      subst hs
      exact ⟨rfl, rfl, by dsimp only; omega, rfl, rfl, rfl, rfl, rfl, rfl⟩
    · exact absurd h (by simp)
  refine ⟨?_, hgen, ?_⟩
  · intro medians
    rw [bucketStats]
    split
    · rename_i hcond
      simp only [iff_iff_implies_and_implies]
      exact ⟨fun h => absurd h (by simp), fun h => absurd hcond (by omega)⟩
    · rename_i hcond
      simp only [true_iff]
      omega
  · have hfm : (([some 90, some 100, some 110] : List (Option ℚ)).filterMap id) =
        ([90, 100, 110] : List ℚ) := rfl
    have hmean : listMean [90, 100, 110] = 100 := by
      norm_num [listMean]
    have hvar : popVariance [90, 100, 110] = 200/3 := by
      rw [popVariance, hmean]
      norm_num
    have hb : bucketStats [some 90, some 100, some 110] =
        some { filesWithData := 3
               values := [90, 100, 110]
               mean := listMean [90, 100, 110]
               stdDev := Real.sqrt ((popVariance [90, 100, 110] : ℚ) : ℝ)
               cv := Real.sqrt ((popVariance [90, 100, 110] : ℚ) : ℝ) /
                 ((listMean [90, 100, 110] : ℚ) : ℝ) * 100
               min := listMin [90, 100, 110]
               max := listMax [90, 100, 110]
               range := listMax [90, 100, 110] - listMin [90, 100, 110] } := by
      rw [bucketStats]
      rw [if_pos (by decide)]
      rfl
    have hsqrt_lo : (8.164 : ℝ) < Real.sqrt ((popVariance [90, 100, 110] : ℚ) : ℝ) := by
      rw [hvar]
      rw [Real.lt_sqrt (by norm_num)]
      push_cast
      norm_num
    have hsqrt_hi : Real.sqrt ((popVariance [90, 100, 110] : ℚ) : ℝ) < 8.165 := by
      rw [hvar]
      rw [Real.sqrt_lt' (by norm_num)]
      push_cast
      norm_num
    have hmin : listMin [90, 100, 110] = 90 := by
      norm_num [listMin]
    have hmax : listMax [90, 100, 110] = 110 := by
      norm_num [listMax]
    have hcv : Real.sqrt ((popVariance [90, 100, 110] : ℚ) : ℝ) /
        ((listMean [90, 100, 110] : ℚ) : ℝ) * 100 =
        Real.sqrt ((popVariance [90, 100, 110] : ℚ) : ℝ) := by
      rw [hmean]
      norm_num
    refine ⟨_, hb, rfl, hmean, ?_, hsqrt_lo, hsqrt_hi, hcv, ?_, ?_, hmin, hmax, ?_⟩
    · rw [hvar]
      exact Real.sq_sqrt (by positivity)
    · rw [hcv]
      exact hsqrt_lo
    · rw [hcv]
      exact hsqrt_hi
    · rw [hmin, hmax]
      norm_num

/-- Witness for C8: lists with fewer than two non-absent medians are
excluded from the cross-session report. -/
theorem c8_cross_session_stats_witness :
    bucketStats ([] : List (Option ℚ)) = none ∧
    bucketStats [some 5, none] = none :=
  ⟨(c8_cross_session_stats.1 []).mpr (by decide),
   (c8_cross_session_stats.1 [some 5, none]).mpr (by decide)⟩

/-! ## Binary-search nearest-timestamp variant (C3) -/

theorem jsAbs_eq_abs (x : ℚ) : jsAbs x = |x| := by
  rw [jsAbs]
  split
  · exact (abs_of_neg (by assumption)).symm
  · exact (abs_of_nonneg (not_lt.1 (by assumption))).symm

theorem jsAbs_nonneg (x : ℚ) : 0 ≤ jsAbs x := by
  rw [jsAbs_eq_abs]
  exact abs_nonneg x

theorem times_getD_mono {times : List ℚ} (hs : List.Sorted (· < ·) times)
    {i j : ℕ} (hij : i ≤ j) (hj : j < times.length) :
    times.getD i 0 ≤ times.getD j 0 := by
  rw [getD_eq_getElem _ _ (lt_of_le_of_lt hij hj), getD_eq_getElem _ _ hj]
  rcases eq_or_lt_of_le hij with rfl | h
  · exact le_refl _
  · exact le_of_lt (List.pairwise_iff_getElem.1 hs i j (lt_of_le_of_lt hij hj) hj h)

/-- Lower bound transport on the left flank: if the element at `a` is below
`target` then every earlier element is at least as far from `target`. -/
theorem far_left {times : List ℚ} (hs : List.Sorted (· < ·) times)
    {a k : ℕ} (hka : k ≤ a) (ha : a < times.length)
    (hbelow : times.getD a 0 < target) :
    jsAbs (times.getD a 0 - target) ≤ jsAbs (times.getD k 0 - target) := by
  have hmono := times_getD_mono hs hka ha
  rw [jsAbs_eq_abs, jsAbs_eq_abs]
  rw [abs_of_neg (by linarith)]
  have h1 : target - times.getD k 0 ≤ |times.getD k 0 - target| := by
    rw [abs_sub_comm]
    exact le_abs_self _
  linarith

/-- Upper-flank analogue of `far_left`. -/
theorem far_right {times : List ℚ} (hs : List.Sorted (· < ·) times)
    {a k : ℕ} (hak : a ≤ k) (hk : k < times.length)
    (habove : target < times.getD a 0) :
    jsAbs (times.getD a 0 - target) ≤ jsAbs (times.getD k 0 - target) := by
  have hmono := times_getD_mono hs hak hk
  rw [jsAbs_eq_abs, jsAbs_eq_abs]
  rw [abs_of_pos (by linarith)]
  have h1 : times.getD k 0 - target ≤ |times.getD k 0 - target| := le_abs_self _
  linarith

theorem binLoop_correct (times : List ℚ) (target : ℚ)
    (hs : List.Sorted (· < ·) times) :
    ∀ (meas : ℕ) (left right : Int) (closest : ℕ) (minDiff : Option ℚ),
      (right + 1 - left).toNat ≤ meas →
      0 ≤ left → left ≤ right + 1 → right ≤ (times.length : Int) - 1 →
      (minDiff = none → left = 0 ∧ right = (times.length : Int) - 1) →
      (∀ m, minDiff = some m → closest < times.length ∧
        m = jsAbs (times.getD closest 0 - target)) →
      (left = 0 ∨ (times.getD (left - 1).toNat 0 < target ∧
        ∀ m, minDiff = some m →
          m ≤ jsAbs (times.getD (left - 1).toNat 0 - target))) →
      (right = (times.length : Int) - 1 ∨ (target < times.getD (right + 1).toNat 0 ∧
        ∀ m, minDiff = some m →
          m ≤ jsAbs (times.getD (right + 1).toNat 0 - target))) →
      (match binLoop times target left right closest minDiff with
       | Sum.inl i => i < times.length ∧ times.getD i 0 = target
       | Sum.inr (c, some m) => c < times.length ∧
           m = jsAbs (times.getD c 0 - target) ∧
           ∀ k, k < times.length → m ≤ jsAbs (times.getD k 0 - target)
       | Sum.inr (_, none) => times.length = 0) := by
  intro meas
  induction meas with
  | zero =>
    intro left right closest minDiff hmeas h0 hlr hrn hnone hsome hleft hright
    have hexit : ¬ left ≤ right := by omega
    rw [binLoop, dif_neg hexit]
    rcases minDiff with _ | m0
    · rcases hnone rfl with ⟨rfl, hr⟩
      omega
    · rcases hsome m0 rfl with ⟨hc, hm⟩
      refine ⟨hc, hm, fun k hk => ?_⟩
      rcases hleft with rfl | ⟨hbelow, hbound⟩
      · rcases hright with hr | ⟨habove, hbound⟩
        · omega
        · have hak : (right + 1).toNat ≤ k := by omega
          have := far_right hs hak hk habove
          have := hbound m0 rfl
          linarith
      · rcases hright with hr | ⟨habove, hbound'⟩
        · have hka : k ≤ (left - 1).toNat := by omega
          have hlelen : (left - 1).toNat < times.length := by omega
          have := far_left hs hka hlelen hbelow
          have := hbound m0 rfl
          linarith
        · rcases Int.lt_or_le (k : Int) left with hkl | hkr
          · have hka : k ≤ (left - 1).toNat := by omega
            have hlelen : (left - 1).toNat < times.length := by omega
            have := far_left hs hka hlelen hbelow
            have := hbound m0 rfl
            linarith
          · have hak : (right + 1).toNat ≤ k := by omega
            have := far_right hs hak hk habove
            have := hbound' m0 rfl
            linarith
  | succ meas ih =>
    intro left right closest minDiff hmeas h0 hlr hrn hnone hsome hleft hright
    by_cases hcond : left ≤ right
    · rw [binLoop, dif_pos hcond]
      have hn1 : 0 < (times.length : Int) := by omega
      have hmid_ge : left ≤ (left + right) / 2 := by omega
      have hmid_le : (left + right) / 2 ≤ right := by omega
      have hmidnat : ((left + right) / 2).toNat < times.length := by omega
      have hidx1 : (((left + right) / 2 + 1 : Int) - 1) = (left + right) / 2 := by ring
      have hidx2 : ((left + right) / 2 - 1 + 1 : Int) = (left + right) / 2 := by ring
      rcases minDiff with _ | m0
      · rcases hnone rfl with ⟨hl0, hr⟩
        dsimp only
        by_cases hlt : times.getD ((left + right) / 2).toNat 0 < target
        · rw [if_pos hlt]
          refine ih ((left + right) / 2 + 1) right ((left + right) / 2).toNat
            (some (jsAbs (times.getD ((left + right) / 2).toNat 0 - target)))
            (by omega) (by omega) (by omega) hrn
            (fun h => Option.noConfusion h)
            (fun m hm => by injection hm with hm; exact ⟨hmidnat, hm.symm⟩)
            (Or.inr ?_) (Or.inl hr)
          rw [hidx1]
          exact ⟨hlt, fun m hm => by injection hm with hm; rw [← hm]⟩
        · by_cases hgt : target < times.getD ((left + right) / 2).toNat 0
          · rw [if_neg hlt, if_pos hgt]
            refine ih left ((left + right) / 2 - 1) ((left + right) / 2).toNat
              (some (jsAbs (times.getD ((left + right) / 2).toNat 0 - target)))
              (by omega) h0 (by omega) (by omega)
              (fun h => Option.noConfusion h)
              (fun m hm => by injection hm with hm; exact ⟨hmidnat, hm.symm⟩)
              (Or.inl hl0) (Or.inr ?_)
            rw [hidx2]
            exact ⟨hgt, fun m hm => by injection hm with hm; rw [← hm]⟩
          · rw [if_neg hlt, if_neg hgt]
            exact ⟨hmidnat, le_antisymm (not_lt.1 hgt) (not_lt.1 hlt)⟩
      · rcases hsome m0 rfl with ⟨hc0, hm0⟩
        dsimp only
        by_cases hd : jsAbs (times.getD ((left + right) / 2).toNat 0 - target) < m0
        · rw [if_pos hd]
          by_cases hlt : times.getD ((left + right) / 2).toNat 0 < target
          · rw [if_pos hlt]
            refine ih ((left + right) / 2 + 1) right ((left + right) / 2).toNat
              (some (jsAbs (times.getD ((left + right) / 2).toNat 0 - target)))
              (by omega) (by omega) (by omega) hrn
              (fun h => Option.noConfusion h)
              (fun m hm => by injection hm with hm; exact ⟨hmidnat, hm.symm⟩)
              (Or.inr ?_) ?_
            · rw [hidx1]
              exact ⟨hlt, fun m hm => by injection hm with hm; rw [← hm]⟩
            · rcases hright with hr | ⟨ha, hb⟩
              · exact Or.inl hr
              · refine Or.inr ⟨ha, fun m hm => ?_⟩
                injection hm with hm
                rw [← hm]
                exact le_trans (le_of_lt hd) (hb m0 rfl)
          · by_cases hgt : target < times.getD ((left + right) / 2).toNat 0
            · rw [if_neg hlt, if_pos hgt]
              refine ih left ((left + right) / 2 - 1) ((left + right) / 2).toNat
                (some (jsAbs (times.getD ((left + right) / 2).toNat 0 - target)))
                (by omega) h0 (by omega) (by omega)
                (fun h => Option.noConfusion h)
                (fun m hm => by injection hm with hm; exact ⟨hmidnat, hm.symm⟩)
                ?_ (Or.inr ?_)
              · rcases hleft with hl | ⟨hb', hbound⟩
                · exact Or.inl hl
                · refine Or.inr ⟨hb', fun m hm => ?_⟩
                  injection hm with hm
                  rw [← hm]
                  exact le_trans (le_of_lt hd) (hbound m0 rfl)
              · rw [hidx2]
                exact ⟨hgt, fun m hm => by injection hm with hm; rw [← hm]⟩
            · rw [if_neg hlt, if_neg hgt]
              exact ⟨hmidnat, le_antisymm (not_lt.1 hgt) (not_lt.1 hlt)⟩
        · rw [if_neg hd]
          by_cases hlt : times.getD ((left + right) / 2).toNat 0 < target
          · rw [if_pos hlt]
            refine ih ((left + right) / 2 + 1) right closest (some m0)
              (by omega) (by omega) (by omega) hrn
              (fun h => Option.noConfusion h)
              (fun m hm => by injection hm with hm; rw [← hm]; exact ⟨hc0, hm0⟩)
              (Or.inr ?_) ?_
            · rw [hidx1]
              refine ⟨hlt, fun m hm => ?_⟩
              injection hm with hm
              rw [← hm]
              exact not_lt.1 hd
            · rcases hright with hr | ⟨ha, hb⟩
              · exact Or.inl hr
              · exact Or.inr ⟨ha, fun m hm => by injection hm with hm; rw [← hm]; exact hb m0 rfl⟩
          · by_cases hgt : target < times.getD ((left + right) / 2).toNat 0
            · rw [if_neg hlt, if_pos hgt]
              refine ih left ((left + right) / 2 - 1) closest (some m0)
                (by omega) h0 (by omega) (by omega)
                (fun h => Option.noConfusion h)
                (fun m hm => by injection hm with hm; rw [← hm]; exact ⟨hc0, hm0⟩)
                ?_ (Or.inr ?_)
              · rcases hleft with hl | ⟨hb', hbound⟩
                · exact Or.inl hl
                · exact Or.inr ⟨hb', fun m hm => by
                    injection hm with hm; rw [← hm]; exact hbound m0 rfl⟩
              · rw [hidx2]
                refine ⟨hgt, fun m hm => ?_⟩
                injection hm with hm
                rw [← hm]
                exact not_lt.1 hd
            · rw [if_neg hlt, if_neg hgt]
              exact ⟨hmidnat, le_antisymm (not_lt.1 hgt) (not_lt.1 hlt)⟩
    · rw [binLoop, dif_neg hcond]
      rcases minDiff with _ | m0
      · rcases hnone rfl with ⟨rfl, hr⟩
        omega
      · rcases hsome m0 rfl with ⟨hc, hm⟩
        refine ⟨hc, hm, fun k hk => ?_⟩
        rcases hleft with rfl | ⟨hbelow, hbound⟩
        · rcases hright with hr | ⟨habove, hbound⟩
          · omega
          · have hak : (right + 1).toNat ≤ k := by omega
            have := far_right hs hak hk habove
            have := hbound m0 rfl
            linarith
        · rcases hright with hr | ⟨habove, hbound'⟩
          · have hka : k ≤ (left - 1).toNat := by omega
            have hlelen : (left - 1).toNat < times.length := by omega
            have := far_left hs hka hlelen hbelow
            have := hbound m0 rfl
            linarith
          · rcases Int.lt_or_le (k : Int) left with hkl | hkr
            · have hka : k ≤ (left - 1).toNat := by omega
              have hlelen : (left - 1).toNat < times.length := by omega
              have := far_left hs hka hlelen hbelow
              have := hbound m0 rfl
              linarith
            · have hak : (right + 1).toNat ≤ k := by omega
              have := far_right hs hak hk habove
              have := hbound' m0 rfl
              linarith

theorem findClosestIndexBin_spec (times : List ℚ) (target : ℚ)
    (hs : List.Sorted (· < ·) times) :
    (times.length = 0 → findClosestIndexBin times target = -1) ∧
    (0 < times.length → ∃ c, c < times.length ∧
      (∀ k, k < times.length →
        jsAbs (times.getD c 0 - target) ≤ jsAbs (times.getD k 0 - target)) ∧
      findClosestIndexBin times target =
        (if jsAbs (times.getD c 0 - target) < 1/2 then (c : Int) else -1)) := by
  have hpost := binLoop_correct times target hs ((times.length : Int) - 1 + 1 - 0).toNat
    0 ((times.length : Int) - 1) 0 none (le_refl _) (by omega) (by omega) (by omega)
    (fun _ => ⟨rfl, rfl⟩) (fun m hm => Option.noConfusion hm) (Or.inl rfl) (Or.inl rfl)
  rw [findClosestIndexBin]
  rcases hres : binLoop times target 0 ((times.length : Int) - 1) 0 none with i | ⟨c, m⟩
  · rw [hres] at hpost
    have hdiff : jsAbs (times.getD i 0 - target) = 0 := by
      rw [hpost.2]
      simp [jsAbs]
    constructor
    · intro h
      omega
    · intro _
      refine ⟨i, hpost.1, fun k hk => ?_, ?_⟩
      · rw [hdiff]
        exact jsAbs_nonneg _
      · rw [hdiff, if_pos (by norm_num)]
  · rw [hres] at hpost
    rcases m with _ | m
    · constructor
      · intro _
        rfl
      · intro hn
        rw [hpost] at hn
        exact absurd hn (lt_irrefl 0)
    · rcases hpost with ⟨hc, hm, hmin⟩
      constructor
      · intro h
        omega
      · intro _
        exact ⟨c, hc, fun k hk => hm ▸ hmin k hk, by rw [← hm]⟩

theorem findClosestLinear_spec (times : List ℚ) (target : ℚ) :
    (times.length = 0 → findClosestLinear times target = -1) ∧
    (0 < times.length → ∃ c, c < times.length ∧
      (∀ k, k < times.length →
        jsAbs (times.getD c 0 - target) ≤ jsAbs (times.getD k 0 - target)) ∧
      (∀ k, k < c →
        jsAbs (times.getD c 0 - target) < jsAbs (times.getD k 0 - target)) ∧
      findClosestLinear times target =
        (if jsAbs (times.getD c 0 - target) < 1/2 then (c : Int) else -1)) := by
  constructor
  · intro h0
    rw [List.length_eq_zero.1 h0]
    rfl
  · intro hn
    rcases linearScan_spec times target
        (fun h => by rw [h] at hn; exact absurd hn (lt_irrefl _)) with
      ⟨c, m, hscan, hc, hm, hall, hfirst⟩
    refine ⟨c, hc, fun k hk => hm ▸ hall k hk, fun k hk => hm ▸ hfirst k hk, ?_⟩
    rw [findClosestLinear]
    rw [hscan]
    rw [hm]

/-- C3 (amended): on a strictly increasing (duplicate-free) store, the
Validator's linear scan and the binary-search variant each return an index
attaining the minimal timestamp distance when that minimum is under the
0.5 s tolerance (`-1` otherwise); they agree on the tolerance decision
(`-1` together), and they return the same index whenever the nearest
timestamp is unique — but may return different nearest indices when two
timestamps tie for nearest. -/
theorem c3_nearest_search (times : List ℚ) (target : ℚ)
    (hs : List.Sorted (· < ·) times) :
    (findClosestLinear times target = -1 ↔ findClosestIndexBin times target = -1) ∧
    (∀ i : ℕ, findClosestLinear times target = (i : Int) →
      i < times.length ∧ jsAbs (times.getD i 0 - target) < 1/2 ∧
      ∀ k, k < times.length →
        jsAbs (times.getD i 0 - target) ≤ jsAbs (times.getD k 0 - target)) ∧
    (∀ i : ℕ, findClosestIndexBin times target = (i : Int) →
      i < times.length ∧ jsAbs (times.getD i 0 - target) < 1/2 ∧
      ∀ k, k < times.length →
        jsAbs (times.getD i 0 - target) ≤ jsAbs (times.getD k 0 - target)) ∧
    ((∀ j k : ℕ, j < times.length → k < times.length →
        (∀ a, a < times.length →
          jsAbs (times.getD j 0 - target) ≤ jsAbs (times.getD a 0 - target)) →
        (∀ a, a < times.length →
          jsAbs (times.getD k 0 - target) ≤ jsAbs (times.getD a 0 - target)) →
        j = k) →
      findClosestLinear times target = findClosestIndexBin times target) := by
  rcases Nat.eq_zero_or_pos times.length with h0 | hn
  · have hL := (findClosestLinear_spec times target).1 h0
    have hB := (findClosestIndexBin_spec times target hs).1 h0
    refine ⟨by rw [hL, hB], ?_, ?_, ?_⟩
    · intro i hi
      rw [hL] at hi
      omega
    · intro i hi
      rw [hB] at hi
      omega
    · intro _
      rw [hL, hB]
  · rcases (findClosestLinear_spec times target).2 hn with ⟨cL, hcL, hminL, hfirstL, hLeq⟩
    rcases (findClosestIndexBin_spec times target hs).2 hn with ⟨cB, hcB, hminB, hBeq⟩
    have hmm : jsAbs (times.getD cL 0 - target) = jsAbs (times.getD cB 0 - target) :=
      le_antisymm (hminL cB hcB) (hminB cL hcL)
    refine ⟨?_, ?_, ?_, ?_⟩
    · rw [hLeq, hBeq, hmm]
      by_cases h : jsAbs (times.getD cB 0 - target) < 1/2
      · rw [if_pos h, if_pos h]
        constructor
        · intro h'
          omega
        · intro h'
          omega
      · rw [if_neg h, if_neg h]
    · intro i hi
      rw [hLeq] at hi
      split at hi
      · rename_i h
        have hieq : cL = i := by omega
        subst hieq
        exact ⟨hcL, h, hminL⟩
      · omega
    · intro i hi
      rw [hBeq] at hi
      split at hi
      · rename_i h
        have hieq : cB = i := by omega
        subst hieq
        exact ⟨hcB, h, hminB⟩
      · omega
    · intro huniq
      have hceq : cL = cB := huniq cL cB hcL hcB hminL hminB
      rw [hLeq, hBeq, hceq]

/-- Counterexample for C3 as stated: over the strictly increasing,
duplicate-free store `[0, 0.4, 10]` with `targetTime = 0.2`, indices 0 and
1 tie for nearest (both 0.2 s away, within tolerance); the linear scan
keeps the first index 0, while the binary search visits index 1 first and
returns 1 — the two variants return different nearest-sample indices. -/
theorem c3_counterexample :
    List.Sorted (· < ·) [0, 2/5, (10 : ℚ)] ∧
    findClosestLinear [0, 2/5, (10 : ℚ)] (1/5) = 0 ∧
    findClosestIndexBin [0, 2/5, (10 : ℚ)] (1/5) = 1 ∧
    findClosestLinear [0, 2/5, (10 : ℚ)] (1/5) ≠
      findClosestIndexBin [0, 2/5, (10 : ℚ)] (1/5) := by
  have hlin : findClosestLinear [0, 2/5, (10 : ℚ)] (1/5) = 0 := by
    with_unfolding_all decide
  have h1 : binLoop [0, 2/5, (10 : ℚ)] (1/5) 0 2 0 none =
      binLoop [0, 2/5, (10 : ℚ)] (1/5) 0 0 1 (some (1/5)) := by
    rw [binLoop]
    norm_num [List.getD, jsAbs]
  have h2 : binLoop [0, 2/5, (10 : ℚ)] (1/5) 0 0 1 (some (1/5)) =
      binLoop [0, 2/5, (10 : ℚ)] (1/5) 1 0 1 (some (1/5)) := by
    rw [binLoop]
    norm_num [List.getD, jsAbs]
  have h3 : binLoop [0, 2/5, (10 : ℚ)] (1/5) 1 0 1 (some (1/5)) =
      Sum.inr (1, some (1/5)) := by
    rw [binLoop]
    norm_num
  have hbin : findClosestIndexBin [0, 2/5, (10 : ℚ)] (1/5) = 1 := by
    rw [findClosestIndexBin]
    have hlen : ((([0, 2/5, (10 : ℚ)] : List ℚ).length : Int) - 1) = 2 := by norm_num
    rw [hlen, h1, h2, h3]
    norm_num
  refine ⟨by with_unfolding_all decide, hlin, hbin, ?_⟩
  rw [hlin, hbin]
  decide

/-- Witness for C3 (amended) on `[0, 10]` with `targetTime = 0.1`: the
nearest timestamp is unique, and both search variants return the same
result. -/
theorem c3_nearest_search_witness :
    findClosestLinear [0, (10 : ℚ)] (1/10) = findClosestIndexBin [0, (10 : ℚ)] (1/10) := by
  refine (c3_nearest_search [0, (10 : ℚ)] (1/10) (by decide)).2.2.2 ?_
  intro j k hj hk hjmin hkmin
  simp only [List.length_cons, List.length_nil] at hj hk
  interval_cases j <;> interval_cases k
  · rfl
  · have h1 := hkmin 0 (by norm_num)
    norm_num [jsAbs, List.getD] at h1
  · have h1 := hjmin 0 (by norm_num)
    norm_num [jsAbs, List.getD] at h1
  · rfl

end LambdaDelay
